import Mathlib

/-!
Verification development for the elastic-debugger repository (Rust).

The definitions below are a shallow embedding of the core of the program:
the windowed event-log scanner (src/utils.rs, get_all_events), the
priority-queue Merkle computation and verification
(src/priority_transactions.rs, src/statetransition.rs), and the
asset-router classification and balance aggregation
(src/l1_asset_router.rs, src/bridgehub.rs).

Modelling conventions:
- machine integers (u64, usize, U256) are Nat; the program never relies on
  wrap-around for these values;
- 32-byte words (B256, FixedBytes<32>) are byte lists (Bytes := List Nat);
- keccak256 is an external primitive and is passed in as an explicit
  function parameter; a parent node hashes the raw concatenation of its two
  children, exactly as the source concatenates the two 32-byte slices;
- remote calls are an oracle record (Transport, TokenOracle, balance
  oracle); eyre::Result is Except Err; a Rust panic (unwrap, out-of-bounds
  indexing) is Option.none in the embedding, so a fallible computation that
  may also panic has type Option (Except Err _).
-/

/-- Byte strings; a 32-byte word (B256 / FixedBytes<32>) is such a list. -/
abbrev Bytes : Type := List Nat

/-- Contract / account addresses (alloy Address), abstracted to Nat. -/
abbrev Address : Type := Nat

/-- Transport-level error (alloy transport error), abstracted to a code. -/
abbrev TransportErr : Type := Nat

/-- The errors the embedded operations report through eyre::Result.
rootMismatch carries both roots, mirroring the formatted bail message
"Priority tree root hash invalid: {on-chain} vs {computed}" in
src/statetransition.rs lines 255-259. -/
inductive Err : Type where
  | transport (code : TransportErr)
  | priorityOnlyL1
  | notImplemented
  | rootMismatch (onchain computed : Bytes)
deriving DecidableEq, Repr

/-- A raw log of a NewPriorityRequest event, already carrying the fields
that From<Log> for PriorityTransaction decodes (txId as index, txHash,
expirationTimestamp); the ABI encoding itself is opaque to the core. -/
structure Log where
  index : Nat
  tx_hash : Bytes
  expiration : Nat
deriving DecidableEq, Repr

/-- The remote chain client of one (address, topic) scan: block-height
query and windowed log query, each either succeeding or failing with a
transport error. -/
structure Transport where
  blockNumber : Except TransportErr Nat
  getLogs : Nat → Nat → Except TransportErr (List Log)

/-- SequencerType from src/sequencer.rs lines 20-30. -/
structure L2SequencerInfo where
  l1_chain_id : Nat
  bridgehub_address : Address
deriving DecidableEq, Repr

inductive SequencerType : Type where
  | L1
  | L2 (info : L2SequencerInfo)
deriving DecidableEq, Repr

/-- BLOCKS_PER_CALL from src/utils.rs line 19. -/
def BLOCKS_PER_CALL : Nat := 500

/-- The loop of get_all_events (src/utils.rs lines 21-40) reduced to the
trace of [from, to] block windows it issues.  The Rust loop keeps a steps
counter initialised to block_limit / BLOCKS_PER_CALL + 1 and decrements it
after each window, stopping when it hits zero or when the lower bound
reaches block 0; here steps is the first recursion argument, so the
source's test "steps - 1 == 0 after the decrement" is the test
"steps = 0" on the predecessor.  The steps = 0 base case is unreachable
from get_all_events_windows, which always starts at steps >= 1. -/
def scanWindows (W : Nat) : Nat → Nat → List (Nat × Nat)
  | 0, _ => []
  | steps + 1, current =>
    if current = 0 then []
    else
      let prev := current - W
      if steps = 0 then [(prev + 1, current)]
      else (prev + 1, current) :: scanWindows W steps prev

/-- The windows issued by get_all_events for head block H and depth limit
block_limit, with the window size W a parameter (the source fixes
W = BLOCKS_PER_CALL = 500). -/
def get_all_events_windows (W block_limit H : Nat) : List (Nat × Nat) :=
  scanWindows W (block_limit / W + 1) H

/-- The loop of get_all_events (src/utils.rs lines 21-40) as an Except
computation against a transport: each window queries getLogs and a
transport failure is returned immediately (the ? operator); logs of later
(lower) windows are appended after the current window's logs. -/
def getAllEventsLoop (t : Transport) (W : Nat) : Nat → Nat → Except Err (List Log)
  | 0, _ => Except.ok []
  | steps + 1, current =>
    if current = 0 then Except.ok []
    else
      let prev := current - W
      match t.getLogs (prev + 1) current with
      | Except.error e => Except.error (Err.transport e)
      | Except.ok logs =>
        if steps = 0 then Except.ok logs
        else
          match getAllEventsLoop t W steps prev with
          | Except.error e => Except.error e
          | Except.ok rest => Except.ok (logs ++ rest)

/-- get_all_events (src/utils.rs lines 10-43): query the block height
(propagating a transport failure), then run the windowed loop with
steps = block_limit / BLOCKS_PER_CALL + 1. -/
def get_all_events (t : Transport) (block_limit : Nat) : Except Err (List Log) :=
  match t.blockNumber with
  | Except.error e => Except.error (Err.transport e)
  | Except.ok current =>
    getAllEventsLoop t BLOCKS_PER_CALL (block_limit / BLOCKS_PER_CALL + 1) current

/-- PriorityTransaction (src/priority_transactions.rs lines 64-69); the
decoded L2CanonicalTransaction envelope is display-only and carries no
verification content, so it is not modelled. -/
structure PriorityTransaction where
  index : Nat
  tx_id : Bytes
  expiration_timestamp : Nat
deriving DecidableEq, Repr

/-- From<Log> for PriorityTransaction (src/priority_transactions.rs lines
139-155): take the decoded index, transaction id and expiration. -/
def PriorityTransaction.ofLog (l : Log) : PriorityTransaction :=
  { index := l.index, tx_id := l.tx_hash, expiration_timestamp := l.expiration }

/-- Fuel-based rendering of usize::next_power_of_two: double power,
starting from 1, until it reaches n.  Rust returns 1 for n = 0. -/
def npotGo (n : Nat) : Nat → Nat → Nat
  | 0, power => power
  | fuel + 1, power => if n ≤ power then power else npotGo n fuel (power * 2)

/-- usize::next_power_of_two as used at src/priority_transactions.rs line
158.  Fuel n suffices because the power doubles from 1 and 2^(n-1) >= n. -/
def next_power_of_two (n : Nat) : Nat :=
  npotGo n n 1

/-- The leaf-write loop of compute_merkle_tree
(src/priority_transactions.rs lines 160-162): leaves[tx.index] = tx.tx_id
for each event.  The Rust indexing panics when tx.index is out of range;
the panic is none. -/
def writeLeaves : List PriorityTransaction → List Bytes → Option (List Bytes)
  | [], leaves => some leaves
  | tx :: rest, leaves =>
    if tx.index < leaves.length then writeLeaves rest (leaves.set tx.index tx.tx_id)
    else none

/-- Leaf allocation of compute_merkle_tree (src/priority_transactions.rs
lines 158-162): size = next power of two of the event count, default leaf
keccak of the empty byte string, then the write loop. -/
def buildLeaves (keccak : Bytes → Bytes) (txs : List PriorityTransaction) :
    Option (List Bytes) :=
  writeLeaves txs (List.replicate (next_power_of_two txs.length) (keccak []))

/-- One bottom-up reduction level (src/priority_transactions.rs lines
164-171): parent i = keccak of the concatenation of children 2i and
2i+1. -/
def reduceLevel (keccak : Bytes → Bytes) (leaves : List Bytes) : List Bytes :=
  (List.range (leaves.length / 2)).map fun i =>
    keccak (leaves.getD (2 * i) [] ++ leaves.getD (2 * i + 1) [])

/-- The while loop of compute_merkle_tree (lines 163-172) with explicit
fuel: reduce levels while more than one node remains.  Fuel equal to the
initial length suffices since each level at least halves the length
(reduceLevels_length below). -/
def reduceLevels (keccak : Bytes → Bytes) : Nat → List Bytes → List Bytes
  | 0, leaves => leaves
  | fuel + 1, leaves =>
    if 1 < leaves.length then reduceLevels keccak fuel (reduceLevel keccak leaves)
    else leaves

/-- The reduction phase plus the final *leaves.get(0).unwrap() (line 174);
the unwrap panics on an empty list, hence head?. -/
def reduceRoot (keccak : Bytes → Bytes) (leaves : List Bytes) : Option Bytes :=
  (reduceLevels keccak leaves.length leaves).head?

/-- compute_merkle_tree (src/priority_transactions.rs lines 157-175):
allocate and write the leaves, then reduce pairwise to a single root.
none models a panic (out-of-range index write, or empty final level). -/
def compute_merkle_tree (keccak : Bytes → Bytes)
    (txs : List PriorityTransaction) : Option Bytes :=
  (buildLeaves keccak txs).bind (reduceRoot keccak)

/-- The maximum decoded index of a list of events (0 when empty); used to
state the spec's "next_power_of_two(max(decoded index) + 1)" formula. -/
def maxIndex (txs : List PriorityTransaction) : Nat :=
  (txs.map PriorityTransaction.index).foldr max 0

/-- fetch_all_priority_transactions (src/priority_transactions.rs lines
177-202): on an L1 sequencer, scan with a 5000 block depth limit and
decode every log; the scan result is unwrapped, so a failed scan is a
panic (none).  On an L2 sequencer, bail without touching the transport. -/
def fetch_all_priority_transactions (t : Transport) (seq : SequencerType) :
    Option (Except Err (List PriorityTransaction)) :=
  match seq with
  | SequencerType.L1 =>
    match get_all_events t 5000 with
    | Except.error _ => none
    | Except.ok events => some (Except.ok (events.map PriorityTransaction.ofLog))
  | SequencerType.L2 _ => some (Except.error Err.priorityOnlyL1)

/-- verify_priority_root_hash (src/statetransition.rs lines 252-263):
fetch the priority transactions (propagating an error result, inheriting
a panic), recompute the Merkle root, and bail with both the stored
on-chain root and the computed root when they differ.  The source
evaluates compute_merkle_tree twice with the same pure result; the
embedding names that value once. -/
def verify_priority_root_hash (keccak : Bytes → Bytes) (t : Transport)
    (seq : SequencerType) (priority_tree_root : Bytes) : Option (Except Err Unit) :=
  match fetch_all_priority_transactions t seq with
  | none => none
  | some (Except.error e) => some (Except.error e)
  | some (Except.ok txs) =>
    match compute_merkle_tree keccak txs with
    | none => none
    | some computed =>
      if computed ≠ priority_tree_root then
        some (Except.error (Err.rootMismatch priority_tree_root computed))
      else some (Except.ok ())

/-- NativeTokenVaultAsset (src/l1_asset_router.rs lines 52-56). -/
structure NativeTokenVaultAsset where
  address : Address
  token_name : String
deriving DecidableEq, Repr

/-- AssetHandler (src/l1_asset_router.rs lines 58-63): Bridgehub is the
registry-root-backed variant, Other the unknown variant. -/
inductive AssetHandler : Type where
  | Bridgehub
  | NativeTokenVault (a : NativeTokenVaultAsset)
  | Other (a : Address)
deriving DecidableEq, Repr

/-- The three-way handler classification named by the spec: vault-backed,
registry-backed, unknown. -/
inductive HandlerTag : Type where
  | vaultBacked
  | registryBacked
  | unknownHandler
deriving DecidableEq, Repr

def AssetHandler.tag : AssetHandler → HandlerTag
  | AssetHandler.Bridgehub => HandlerTag.registryBacked
  | AssetHandler.NativeTokenVault _ => HandlerTag.vaultBacked
  | AssetHandler.Other _ => HandlerTag.unknownHandler

/-- The filter used by get_chain_balances (src/bridgehub.rs lines
352-358). -/
def AssetHandler.isNativeTokenVault : AssetHandler → Bool
  | AssetHandler.NativeTokenVault _ => true
  | _ => false

/-- RegisteredAsset (src/l1_asset_router.rs lines 47-50). -/
structure RegisteredAsset where
  asset_id : Bytes
  handler : AssetHandler
deriving DecidableEq, Repr

/-- The remote reads RegisteredAsset::new performs in its vault-backed
branch: NativeTokenVault.tokenAddress and ERC20.name.  Both are unwrapped
in the source, so a failure is a panic (none). -/
structure TokenOracle where
  tokenAddress : Bytes → Option Address
  erc20Name : Address → Option String

/-- The sentinel token address 0x...01 meaning ETH
(src/l1_asset_router.rs line 99). -/
def ETH_TOKEN_ADDRESS : Address := 1

/-- RegisteredAsset::new (src/l1_asset_router.rs lines 78-119): compare
the deployment tracker first against the native-token-vault address
(vault-backed; resolves the token address and name remotely, with ETH as
a special case), then against the bridgehub (registry-root) address, and
otherwise record the tracker as an unknown handler. -/
def RegisteredAsset.new (o : TokenOracle) (asset_id : Bytes)
    (deployment_tracker native_token_vault bridgehub : Address) :
    Option RegisteredAsset :=
  if deployment_tracker = native_token_vault then
    match o.tokenAddress asset_id with
    | none => none
    | some token_address =>
      match (if token_address = ETH_TOKEN_ADDRESS then some "ETH"
             else o.erc20Name token_address) with
      | none => none
      | some token_name =>
        some { asset_id := asset_id,
               handler := AssetHandler.NativeTokenVault
                 { address := token_address, token_name := token_name } }
  else if deployment_tracker = bridgehub then
    some { asset_id := asset_id, handler := AssetHandler.Bridgehub }
  else
    some { asset_id := asset_id, handler := AssetHandler.Other deployment_tracker }

/-- RegisteredAsset::name (src/l1_asset_router.rs lines 121-131); the
keccak-based human name generator is the display collaborator humanName. -/
def RegisteredAsset.name (humanName : Bytes → String) (a : RegisteredAsset) : String :=
  match a.handler with
  | AssetHandler.Bridgehub => humanName a.asset_id
  | AssetHandler.NativeTokenVault v => v.token_name ++ "-" ++ humanName a.asset_id
  | AssetHandler.Other _ => humanName a.asset_id

/-- L1AssetRouter (src/l1_asset_router.rs lines 150-154); the HashMap of
registered assets is modelled as its association list. -/
structure L1AssetRouter where
  address : Address
  native_token_vault : Address
  registered_assets : List (Bytes × RegisteredAsset)

/-- AssetRouter (src/bridgehub.rs lines 79-82); the L2 variant is a stub
holding only its own address. -/
inductive AssetRouter : Type where
  | L1 (r : L1AssetRouter)
  | L2 (address : Address)

/-- HashMap::insert on the result map of get_chain_balances: overwrite the
value when the key is present, extend otherwise. -/
def mapInsert (m : List (String × Nat)) (k : String) (v : Nat) : List (String × Nat) :=
  if m.any fun p => p.1 = k then m.map fun p => if p.1 = k then (k, v) else p
  else m ++ [(k, v)]

/-- The balance loop of get_chain_balances (src/bridgehub.rs lines
359-365): for each filtered asset, read
NativeTokenVault.chainBalance(chain_id, asset_id) on the router's vault —
unwrapped in chain_balance (src/l1_asset_router.rs lines 201-217), so a
failure is a panic — and insert it under the asset's display name. -/
def chainBalancesLoop (humanName : Bytes → String)
    (bal : Address → Nat → Bytes → Option Nat) (vault : Address) (chain_id : Nat) :
    List (Bytes × RegisteredAsset) → List (String × Nat) → Option (List (String × Nat))
  | [], result => some result
  | (asset_id, asset) :: rest, result =>
    match bal vault chain_id asset_id with
    | none => none
    | some amount =>
      chainBalancesLoop humanName bal vault chain_id rest
        (mapInsert result (asset.name humanName) amount)

/-- get_chain_balances (src/bridgehub.rs lines 344-372): on an L1 router,
filter the registered assets to native-token-vault handlers and
accumulate name → amount; on an L2 router, bail "Not implemented yet". -/
def get_chain_balances (humanName : Bytes → String)
    (bal : Address → Nat → Bytes → Option Nat) (router : AssetRouter)
    (chain_id : Nat) : Option (Except Err (List (String × Nat))) :=
  match router with
  | AssetRouter.L2 _ => some (Except.error Err.notImplemented)
  | AssetRouter.L1 r =>
    match chainBalancesLoop humanName bal r.native_token_vault chain_id
        (r.registered_assets.filter fun p => p.2.handler.isNativeTokenVault) [] with
    | none => none
    | some result => some (Except.ok result)

/-! Concrete fixtures used by the witness and counterexample theorems. -/

/-- A transport whose block-height query fails. -/
def tHeightFail : Transport :=
  { blockNumber := Except.error 3, getLogs := fun _ _ => Except.ok [] }

/-- A transport over a 1000-block chain whose log query succeeds on the
first issued window (501, 1000) and fails on every later one — a
transport failure in the middle of a scan. -/
def tLateFail : Transport :=
  { blockNumber := Except.ok 1000,
    getLogs := fun _ b => if b = 1000 then Except.ok [] else Except.error 7 }

/-- A transport for an empty chain: height 0, no logs. -/
def tEmpty : Transport :=
  { blockNumber := Except.ok 0, getLogs := fun _ _ => Except.ok [] }

/-- A constant stand-in hash for concrete evaluations. -/
def kTest : Bytes → Bytes := fun _ => [42]

/-- A token oracle for concrete evaluations. -/
def oTest : TokenOracle :=
  { tokenAddress := fun _ => some 9, erc20Name := fun _ => some "T" }

/-- A second token oracle whose answers differ from oTest (its token
address is the ETH sentinel). -/
def oTest2 : TokenOracle :=
  { tokenAddress := fun _ => some 1, erc20Name := fun _ => some "U" }

/-- The asset RegisteredAsset::new builds from oTest with tracker = vault. -/
def assetT : RegisteredAsset :=
  { asset_id := [1],
    handler := AssetHandler.NativeTokenVault { address := 9, token_name := "T" } }

/-- The asset RegisteredAsset::new builds from oTest2 with tracker = vault. -/
def assetETH : RegisteredAsset :=
  { asset_id := [1],
    handler := AssetHandler.NativeTokenVault { address := 1, token_name := "ETH" } }

/-- A vault-backed registered asset for the balance fixtures. -/
def assetNTV : RegisteredAsset :=
  { asset_id := [1],
    handler := AssetHandler.NativeTokenVault { address := 2, token_name := "tok" } }

/-- An unknown-handler registered asset for the balance fixtures. -/
def assetOther : RegisteredAsset :=
  { asset_id := [2], handler := AssetHandler.Other 9 }

/-- An L1 asset router holding one vault-backed and one unknown asset. -/
def routerTest : L1AssetRouter :=
  { address := 10, native_token_vault := 11,
    registered_assets := [([1], assetNTV), ([2], assetOther)] }

/-- A constant human-name generator for concrete evaluations. -/
def humanTest : Bytes → String := fun _ => "h"

/-- A constant balance oracle for concrete evaluations. -/
def balTest : Address → Nat → Bytes → Option Nat := fun _ _ _ => some 4

/-- Two events with dense zero-based indices. -/
def txA : PriorityTransaction := { index := 0, tx_id := [1], expiration_timestamp := 0 }

def txB : PriorityTransaction := { index := 1, tx_id := [2], expiration_timestamp := 0 }

/-- Three events, two of which claim index 0: leaf count is then
next_power_of_two(3) = 4 while next_power_of_two(max index + 1) = 2. -/
def txsDup : List PriorityTransaction :=
  [{ index := 0, tx_id := [1], expiration_timestamp := 0 },
   { index := 0, tx_id := [2], expiration_timestamp := 0 },
   { index := 1, tx_id := [3], expiration_timestamp := 0 }]

/-! Helper lemmas about the window scanner. -/

theorem scanWindows_current_zero (W s : Nat) : scanWindows W s 0 = [] := by
  cases s <;> simp [scanWindows]

theorem ceil_div_zero (W : Nat) (hW : 0 < W) : (0 + W - 1) / W = 0 :=
  Nat.div_eq_of_lt (by omega)

theorem ceil_div_pos_rec (W c : Nat) (hW : 0 < W) (hc : 0 < c) :
    (c + W - 1) / W = (c - W + W - 1) / W + 1 := by
  rcases le_or_lt W c with h | h
  · have he : c + W - 1 = (c - W + W - 1) + W := by omega
    rw [he, Nat.add_div_right _ hW]
  · have h0 : c - W = 0 := by omega
    rw [h0]
    have hz : (0 + W - 1) / W = 0 := Nat.div_eq_of_lt (by omega)
    rw [hz]
    exact Nat.div_eq_of_lt_le (by omega) (by omega)

theorem scanWindows_one (W c : Nat) (hc : c ≠ 0) :
    scanWindows W 1 c = [(c - W + 1, c)] := by
  simp [scanWindows, hc]

theorem scanWindows_cons (W s0 c : Nat) (hc : c ≠ 0) (hs0 : s0 ≠ 0) :
    scanWindows W (s0 + 1) c = (c - W + 1, c) :: scanWindows W s0 (c - W) := by
  simp [scanWindows, hc, hs0]

theorem scanWindows_spec (W : Nat) (hW : 0 < W) :
    ∀ c s, (c + W - 1) / W ≤ s →
      (scanWindows W s c).length = (c + W - 1) / W ∧
      (∀ w ∈ scanWindows W s c, 1 ≤ w.1 ∧ w.1 ≤ w.2 ∧ w.2 ≤ c) ∧
      (∀ x, 1 ≤ x → x ≤ c → ∃ w ∈ scanWindows W s c, w.1 ≤ x ∧ x ≤ w.2) ∧
      (scanWindows W s c).Pairwise (fun w w₂ => w₂.2 < w.1) := by
  intro c
  induction c using Nat.strong_induction_on with
  | _ c ih =>
    intro s hs
    by_cases hc : c = 0
    · subst hc
      rw [scanWindows_current_zero]
      refine ⟨?_, by simp, by omega, by simp⟩
      rw [ceil_div_zero W hW]
      rfl
    · have hcpos : 0 < c := Nat.pos_of_ne_zero hc
      have hrec := ceil_div_pos_rec W c hW hcpos
      obtain ⟨k, hk⟩ : ∃ k, (c - W + W - 1) / W = k := ⟨_, rfl⟩
      rw [hk] at hrec
      have hs1 : 1 ≤ s := by omega
      obtain ⟨s0, rfl⟩ : ∃ s0, s = s0 + 1 := ⟨s - 1, by omega⟩
      by_cases hs0 : s0 = 0
      · subst hs0
        have hprev : k = 0 := by omega
        have hlt : c - W + W - 1 < W :=
          (Nat.div_eq_zero_iff hW).mp (hk.trans hprev)
        have hcw : c - W = 0 := by omega
        rw [scanWindows_one W c hc, hcw]
        refine ⟨?_, ?_, ?_, ?_⟩
        · simp only [List.length_singleton]
          omega
        · intro w hw
          simp only [List.mem_singleton] at hw
          subst hw
          exact ⟨by omega, by omega, by omega⟩
        · intro x h1 h2
          exact ⟨(0 + 1, c), by simp, by omega, h2⟩
        · simp
      · rw [scanWindows_cons W s0 c hc hs0]
        have ihp := ih (c - W) (by omega) s0 (by omega)
        obtain ⟨ihlen, ihbound, ihcov, ihpair⟩ := ihp
        refine ⟨?_, ?_, ?_, ?_⟩
        · simp only [List.length_cons, ihlen]
          omega
        · intro w hw
          rcases List.mem_cons.mp hw with hw | hw
          · subst hw
            exact ⟨by omega, by omega, by omega⟩
          · obtain ⟨hb1, hb2, hb3⟩ := ihbound w hw
            exact ⟨hb1, hb2, by omega⟩
        · intro x h1 h2
          by_cases hx : c - W + 1 ≤ x
          · exact ⟨(c - W + 1, c), List.mem_cons_self _ _, hx, h2⟩
          · obtain ⟨w, hwmem, hw1, hw2⟩ := ihcov x h1 (by omega)
            exact ⟨w, List.mem_cons_of_mem _ hwmem, hw1, hw2⟩
        · rw [List.pairwise_cons]
          refine ⟨?_, ihpair⟩
          intro w hw
          obtain ⟨_, _, hb3⟩ := ihbound w hw
          omega

theorem scanWindows_length_full (W : Nat) (hW : 0 < W) :
    ∀ s c, 0 < s → (s - 1) * W < c → (scanWindows W s c).length = s := by
  intro s
  induction s with
  | zero => intro c h; omega
  | succ s0 ihs =>
    intro c _ hfull
    have hc : c ≠ 0 := by
      have h0 : 0 ≤ s0 * W := Nat.zero_le _
      simp only [Nat.add_sub_cancel] at hfull
      omega
    by_cases hs0 : s0 = 0
    · subst hs0
      rw [scanWindows_one W c hc]
      rfl
    · rw [scanWindows_cons W s0 c hc hs0]
      have hsplit : s0 * W = (s0 - 1) * W + W := by
        have : s0 - 1 + 1 = s0 := by omega
        calc s0 * W = (s0 - 1 + 1) * W := by rw [this]
        _ = (s0 - 1) * W + W := by rw [Nat.succ_mul]
      simp only [Nat.add_sub_cancel] at hfull
      have hnext : (s0 - 1) * W < c - W := by omega
      simp only [List.length_cons, ihs (c - W) (by omega) hnext]

/-- The event-scan loop against a transport whose log queries all succeed
returns exactly the concatenation of the logs of the issued windows, in
window order: the window trace scanWindows is the trace of the loop that
the Except computation getAllEventsLoop runs. -/
theorem getAllEventsLoop_windows (t : Transport) (W : Nat) (f : Nat → Nat → List Log)
    (hf : ∀ a b, t.getLogs a b = Except.ok (f a b)) :
    ∀ s c, getAllEventsLoop t W s c =
      Except.ok ((scanWindows W s c).map (fun w => f w.1 w.2)).flatten := by
  intro s
  induction s with
  | zero => intro c; simp [getAllEventsLoop, scanWindows]
  | succ s0 ihs =>
    intro c
    by_cases hc : c = 0
    · subst hc
      simp [getAllEventsLoop, scanWindows]
    · by_cases hs0 : s0 = 0
      · subst hs0
        simp [getAllEventsLoop, scanWindows, hc, hf]
      · simp [getAllEventsLoop, scanWindows, hc, hs0, hf, ihs]

/-- Claim C4: for a chain of height H scanned with window size W and a
depth limit that does not cut the scan short, the windows issued by
get_all_events cover the block range [1, H] exactly: there are
ceil(H / W) of them, every window lies inside [1, H] with its lower bound
at least 1, every block of [1, H] lies in some window, and the windows
are strictly descending, hence pairwise disjoint. -/
theorem get_all_events_window_coverage (W H block_limit : Nat) (hW : 0 < W)
    (hlim : (H + W - 1) / W ≤ block_limit / W + 1) :
    (get_all_events_windows W block_limit H).length = (H + W - 1) / W ∧
    (∀ w ∈ get_all_events_windows W block_limit H, 1 ≤ w.1 ∧ w.1 ≤ w.2 ∧ w.2 ≤ H) ∧
    (∀ x, 1 ≤ x → x ≤ H →
      ∃ w ∈ get_all_events_windows W block_limit H, w.1 ≤ x ∧ x ≤ w.2) ∧
    (get_all_events_windows W block_limit H).Pairwise (fun w w₂ => w₂.2 < w.1) :=
  scanWindows_spec W hW H (block_limit / W + 1) hlim

/-- Witness for C4 at W = 500, H = 1200, block_limit = 5000: three
windows covering [1, 1200]. -/
theorem get_all_events_window_coverage_witness :
    ((0 < 500 ∧ (1200 + 500 - 1) / 500 ≤ 5000 / 500 + 1) ∧
      ((get_all_events_windows 500 5000 1200).length = (1200 + 500 - 1) / 500 ∧
       (∀ w ∈ get_all_events_windows 500 5000 1200, 1 ≤ w.1 ∧ w.1 ≤ w.2 ∧ w.2 ≤ 1200) ∧
       (∀ x, 1 ≤ x → x ≤ 1200 →
         ∃ w ∈ get_all_events_windows 500 5000 1200, w.1 ≤ x ∧ x ≤ w.2) ∧
       (get_all_events_windows 500 5000 1200).Pairwise (fun w w₂ => w₂.2 < w.1))) :=
  ⟨⟨by decide, by decide⟩,
    get_all_events_window_coverage 500 1200 5000 (by decide) (by decide)⟩

/-- Claim C5 counterexample: with window W = 500, depth limit D = 501 and
a tall chain (H = 100000), the scanner issues floor(501/500) + 1 = 2
windows, not ceil(501/500) + 1 = 3 as the claim states. -/
theorem get_all_events_depth_count_counterexample :
    (get_all_events_windows 500 501 100000).length ≠ (501 + 500 - 1) / 500 + 1 := by
  decide

/-- Claim C5 (amended): when a depth limit D is given and the chain is
tall enough that block 1 is not reached first, the scan stops after
exactly floor(D / W) + 1 windows (the source initialises its steps
counter to block_limit / BLOCKS_PER_CALL + 1 with integer division). -/
theorem get_all_events_depth_window_count (W H D : Nat) (hW : 0 < W)
    (htall : (D / W) * W < H) :
    (get_all_events_windows W D H).length = D / W + 1 :=
  scanWindows_length_full W hW (D / W + 1) H (Nat.succ_pos _) (by simpa using htall)

/-- Witness for C5 (amended) at W = 500, D = 5000, H = 100000: exactly 11
windows are issued. -/
theorem get_all_events_depth_window_count_witness :
    ((0 < 500 ∧ (5000 / 500) * 500 < 100000) ∧
      (get_all_events_windows 500 5000 100000).length = 5000 / 500 + 1) :=
  ⟨⟨by decide, by decide⟩,
    get_all_events_depth_window_count 500 100000 5000 (by decide) (by decide)⟩

/-! Helper lemmas about the Merkle leaf array. -/

theorem npotGo_pos (n : Nat) : ∀ fuel power, 0 < power → 0 < npotGo n fuel power := by
  intro fuel
  induction fuel with
  | zero => intro power h; simpa [npotGo] using h
  | succ f ih =>
    intro power h
    by_cases hle : n ≤ power
    · simpa [npotGo, hle] using h
    · simp only [npotGo, if_neg hle]
      exact ih _ (by omega)

theorem one_le_next_power_of_two (n : Nat) : 1 ≤ next_power_of_two n :=
  npotGo_pos n n 1 (by omega)

theorem getD_set_self (l : List Bytes) (i : Nat) (a d : Bytes) (h : i < l.length) :
    (l.set i a).getD i d = a := by
  simp [List.getD_eq_getElem?_getD, List.getElem?_set_self, h]

theorem getD_set_ne (l : List Bytes) (i j : Nat) (a d : Bytes) (h : i ≠ j) :
    (l.set i a).getD j d = l.getD j d := by
  simp [List.getD_eq_getElem?_getD, List.getElem?_set_ne h]

theorem getD_replicate (n : Nat) (a d : Bytes) (i : Nat) (h : i < n) :
    (List.replicate n a).getD i d = a := by
  simp [List.getD_eq_getElem?_getD, List.getElem?_replicate, h]

/-- Full characterisation of the leaf-write loop when every index is in
bounds: it succeeds, preserves the length, leaves untouched slots at their
prior value, and — when the indices are distinct — stores each event's
transaction id at its index. -/
theorem writeLeaves_spec :
    ∀ (txs : List PriorityTransaction) (ls : List Bytes),
      (∀ tx ∈ txs, tx.index < ls.length) →
      ∃ arr, writeLeaves txs ls = some arr ∧ arr.length = ls.length ∧
        (∀ i, (∀ tx ∈ txs, tx.index ≠ i) → arr.getD i [] = ls.getD i []) ∧
        ((txs.map PriorityTransaction.index).Nodup →
          ∀ tx ∈ txs, arr.getD tx.index [] = tx.tx_id) := by
  intro txs
  induction txs with
  | nil =>
    intro ls _
    exact ⟨ls, rfl, rfl, fun i _ => rfl, fun _ tx h => absurd h (List.not_mem_nil _)⟩
  | cons tx rest ih =>
    intro ls hb
    have hidx : tx.index < ls.length := hb tx (List.mem_cons_self _ _)
    have hb2 : ∀ u ∈ rest, u.index < (ls.set tx.index tx.tx_id).length := by
      intro u hu
      rw [List.length_set]
      exact hb u (List.mem_cons_of_mem _ hu)
    obtain ⟨arr, ha, hlen, huntouched, hnd⟩ := ih (ls.set tx.index tx.tx_id) hb2
    refine ⟨arr, ?_, ?_, ?_, ?_⟩
    · simp [writeLeaves, hidx, ha]
    · rw [hlen, List.length_set]
    · intro i hi
      have h1 : ∀ u ∈ rest, u.index ≠ i := fun u hu => hi u (List.mem_cons_of_mem _ hu)
      rw [huntouched i h1, getD_set_ne _ _ _ _ _ (hi tx (List.mem_cons_self _ _))]
    · intro hnodup u hu
      rw [List.map_cons, List.nodup_cons] at hnodup
      obtain ⟨hhead, htail⟩ := hnodup
      rcases List.mem_cons.mp hu with hu | hu
      · subst hu
        have h1 : ∀ v ∈ rest, v.index ≠ u.index := by
          intro v hv heq
          exact hhead (heq ▸ List.mem_map_of_mem PriorityTransaction.index hv)
        rw [huntouched u.index h1, getD_set_self _ _ _ _ hidx]
      · exact hnd htail u hu

/-- The write loop is invariant under permutation of the event list when
the decoded indices are pairwise distinct (writes to distinct positions
commute; a permutation also fails in exactly the same cases, since an
out-of-range write aborts regardless of the writes around it). -/
theorem writeLeaves_perm {txs txs₂ : List PriorityTransaction} (h : txs.Perm txs₂) :
    (txs.map PriorityTransaction.index).Nodup →
    ∀ ls, writeLeaves txs ls = writeLeaves txs₂ ls := by
  induction h with
  | nil => intro _ _; rfl
  | cons x _ ih =>
    intro hnd ls
    rw [List.map_cons, List.nodup_cons] at hnd
    by_cases hx : x.index < ls.length
    · simp only [writeLeaves, if_pos hx]
      exact ih hnd.2 _
    · simp only [writeLeaves, if_neg hx]
  | swap x y l =>
    intro hnd ls
    rw [List.map_cons, List.map_cons, List.nodup_cons] at hnd
    have hne : y.index ≠ x.index := by
      intro he
      exact hnd.1 (he ▸ List.mem_cons_self _ _)
    by_cases hx : x.index < ls.length <;> by_cases hy : y.index < ls.length
    · simp only [writeLeaves, if_pos hx, if_pos hy, List.length_set]
      rw [List.set_comm _ _ _ hne]
    · simp [writeLeaves, hx, hy, List.length_set]
    · simp [writeLeaves, hx, hy, List.length_set]
    · simp [writeLeaves, hx, hy]
  | trans h₁ _ ih₁ ih₂ =>
    intro hnd ls
    rw [ih₁ hnd ls, ih₂ ((h₁.map PriorityTransaction.index).nodup hnd) ls]

theorem reduceLevels_ne_nil (keccak : Bytes → Bytes) :
    ∀ fuel ls, ls ≠ [] → reduceLevels keccak fuel ls ≠ [] := by
  intro fuel
  induction fuel with
  | zero => intro ls h; simpa [reduceLevels] using h
  | succ f ih =>
    intro ls h
    by_cases h1 : 1 < ls.length
    · simp only [reduceLevels, if_pos h1]
      apply ih
      have hlen : (reduceLevel keccak ls).length = ls.length / 2 := by
        simp [reduceLevel]
      intro hnil
      rw [hnil] at hlen
      simp only [List.length_nil] at hlen
      omega
    · simpa [reduceLevels, h1] using h

/-- The reduction phase never panics on a nonempty leaf array: the final
level is nonempty, so leaves.get(0).unwrap() succeeds. -/
theorem reduceRoot_isSome (keccak : Bytes → Bytes) (ls : List Bytes) (h : ls ≠ []) :
    ∃ r, reduceRoot keccak ls = some r := by
  have h2 := reduceLevels_ne_nil keccak ls.length ls h
  obtain ⟨a, l2, he⟩ := List.exists_cons_of_ne_nil h2
  exact ⟨a, by simp [reduceRoot, he]⟩

/-- Claim C1 counterexample: on the three-event list txsDup, with two
events claiming index 0, compute_merkle_tree builds a leaf array of
length next_power_of_two(3) = 4, not next_power_of_two(max index + 1) =
next_power_of_two(2) = 2 as the claim states (the two formulas coincide
only for dense, duplicate-free indices); slot 0 also no longer holds the
first event's transaction id. -/
theorem compute_merkle_leaves_max_index_counterexample :
    buildLeaves kTest txsDup = some [[2], [3], [42], [42]] ∧
    ([[2], [3], [42], [42]] : List Bytes).length ≠
      next_power_of_two (maxIndex txsDup + 1) := by
  exact ⟨by decide, by decide⟩

/-- Claim C1 (amended): for every event list whose indices are in bounds
for the allocated array (index < next_power_of_two(number of events) —
otherwise the unguarded write panics), the leaf array built by
compute_merkle_tree has length next_power_of_two(number of events), with
minimum length 1; unwritten slots are default-filled with hash(empty
bytes), and when the decoded indices are pairwise distinct slot index
holds that event's transaction id. -/
theorem compute_merkle_leaves_spec (keccak : Bytes → Bytes)
    (txs : List PriorityTransaction)
    (hb : ∀ tx ∈ txs, tx.index < next_power_of_two txs.length) :
    ∃ arr, buildLeaves keccak txs = some arr ∧
      arr.length = next_power_of_two txs.length ∧ 1 ≤ arr.length ∧
      (∀ i, i < arr.length → (∀ tx ∈ txs, tx.index ≠ i) → arr.getD i [] = keccak []) ∧
      ((txs.map PriorityTransaction.index).Nodup →
        ∀ tx ∈ txs, arr.getD tx.index [] = tx.tx_id) := by
  have hb2 : ∀ tx ∈ txs,
      tx.index < (List.replicate (next_power_of_two txs.length) (keccak [])).length := by
    intro tx h
    rw [List.length_replicate]
    exact hb tx h
  obtain ⟨arr, ha, hlen, hu, hnd⟩ := writeLeaves_spec txs _ hb2
  rw [List.length_replicate] at hlen
  refine ⟨arr, ha, hlen, ?_, ?_, hnd⟩
  · rw [hlen]
    exact one_le_next_power_of_two _
  · intro i hi h1
    rw [hu i h1, getD_replicate _ _ _ _ (by rw [← hlen]; exact hi)]

/-- Witness for C1 (amended) on the two dense events txA, txB. -/
theorem compute_merkle_leaves_spec_witness :
    (∀ tx ∈ [txA, txB], tx.index < next_power_of_two ([txA, txB] : List PriorityTransaction).length) ∧
    (∃ arr, buildLeaves kTest [txA, txB] = some arr ∧
      arr.length = next_power_of_two ([txA, txB] : List PriorityTransaction).length ∧
      1 ≤ arr.length ∧
      (∀ i, i < arr.length → (∀ tx ∈ [txA, txB], tx.index ≠ i) → arr.getD i [] = kTest []) ∧
      (([txA, txB].map PriorityTransaction.index).Nodup →
        ∀ tx ∈ [txA, txB], arr.getD tx.index [] = tx.tx_id)) :=
  ⟨by decide, compute_merkle_leaves_spec kTest [txA, txB] (by decide)⟩

/-- Claim C2: for events with pairwise-distinct indices drawn from
[0, number of events), the Merkle root compute_merkle_tree returns is the
same for every permutation of the input list. -/
theorem compute_merkle_tree_perm_invariant (keccak : Bytes → Bytes)
    (txs txs₂ : List PriorityTransaction) (hperm : txs.Perm txs₂)
    (hnodup : (txs.map PriorityTransaction.index).Nodup)
    (hb : ∀ tx ∈ txs, tx.index < txs.length) :
    compute_merkle_tree keccak txs₂ = compute_merkle_tree keccak txs := by
  have _ := hb
  unfold compute_merkle_tree buildLeaves
  rw [← hperm.length_eq, ← writeLeaves_perm hperm hnodup]

/-- Witness for C2: swapping the two events txA, txB leaves the root
unchanged. -/
theorem compute_merkle_tree_perm_invariant_witness :
    (([txA, txB] : List PriorityTransaction).Perm [txB, txA] ∧
      ([txA, txB].map PriorityTransaction.index).Nodup ∧
      (∀ tx ∈ [txA, txB], tx.index < ([txA, txB] : List PriorityTransaction).length)) ∧
    compute_merkle_tree kTest [txB, txA] = compute_merkle_tree kTest [txA, txB] :=
  ⟨⟨by decide, by decide, by decide⟩,
    compute_merkle_tree_perm_invariant kTest [txA, txB] [txB, txA]
      (by decide) (by decide) (by decide)⟩

/-- Claim C9: compute_merkle_tree returns a root without panicking
whenever every event's index is strictly below
next_power_of_two(number of events) — the length of the array the
unguarded leaf write indexes into; dense zero-based indices satisfy
this. -/
theorem compute_merkle_tree_total (keccak : Bytes → Bytes)
    (txs : List PriorityTransaction)
    (hb : ∀ tx ∈ txs, tx.index < next_power_of_two txs.length) :
    ∃ root, compute_merkle_tree keccak txs = some root := by
  have hb2 : ∀ tx ∈ txs,
      tx.index < (List.replicate (next_power_of_two txs.length) (keccak [])).length := by
    intro tx h
    rw [List.length_replicate]
    exact hb tx h
  obtain ⟨arr, ha, hlen, -, -⟩ := writeLeaves_spec txs _ hb2
  have hne : arr ≠ [] := by
    have hpos : 0 < arr.length := by
      rw [hlen, List.length_replicate]
      exact one_le_next_power_of_two _
    exact List.length_pos.mp hpos
  obtain ⟨r, hr⟩ := reduceRoot_isSome keccak arr hne
  exact ⟨r, by simp [compute_merkle_tree, buildLeaves, ha, hr]⟩

/-- Witness for C9 on the two dense events txA, txB. -/
theorem compute_merkle_tree_total_witness :
    (∀ tx ∈ [txA, txB], tx.index < next_power_of_two ([txA, txB] : List PriorityTransaction).length) ∧
    (∃ root, compute_merkle_tree kTest [txA, txB] = some root) :=
  ⟨by decide, compute_merkle_tree_total kTest [txA, txB] (by decide)⟩

/-- Claim C3: once the priority transactions have been fetched and their
Merkle root computed, verify_priority_root_hash compares that root to the
stored on-chain root: on a mismatch it returns an error carrying both the
on-chain root and the computed root (never a panic, never silence), and
on equality it returns success. -/
theorem verify_priority_root_hash_spec (keccak : Bytes → Bytes) (t : Transport)
    (seq : SequencerType) (root : Bytes) (txs : List PriorityTransaction)
    (computed : Bytes)
    (hfetch : fetch_all_priority_transactions t seq = some (Except.ok txs))
    (hroot : compute_merkle_tree keccak txs = some computed) :
    (computed ≠ root →
      verify_priority_root_hash keccak t seq root =
        some (Except.error (Err.rootMismatch root computed))) ∧
    (computed = root →
      verify_priority_root_hash keccak t seq root = some (Except.ok ())) := by
  constructor <;> intro h <;> simp [verify_priority_root_hash, hfetch, hroot, h]

/-- Witness for C3 on an empty queue (fetched over tEmpty): the computed
root is the single padding leaf kTest [] = [42]; against on-chain root
[0] the verifier reports both roots, against [42] it succeeds. -/
theorem verify_priority_root_hash_spec_witness :
    ((fetch_all_priority_transactions tEmpty SequencerType.L1 = some (Except.ok []) ∧
      compute_merkle_tree kTest [] = some [42]) ∧
     (([42] : Bytes) ≠ [0] →
       verify_priority_root_hash kTest tEmpty SequencerType.L1 [0] =
         some (Except.error (Err.rootMismatch [0] [42])))) ∧
    (([42] : Bytes) = [42] →
      verify_priority_root_hash kTest tEmpty SequencerType.L1 [42] =
        some (Except.ok ())) :=
  ⟨⟨⟨rfl, by decide⟩,
    (verify_priority_root_hash_spec kTest tEmpty SequencerType.L1 [0] [] [42]
      rfl (by decide)).1⟩,
   (verify_priority_root_hash_spec kTest tEmpty SequencerType.L1 [42] [] [42]
      rfl (by decide)).2⟩

/-- Claim C6 counterexample: on an L1 sequencer with a transport whose
block-height query fails, fetch_all_priority_transactions panics (the
source unwraps the scanner result, src/priority_transactions.rs line 190)
instead of propagating the transport failure as an error result. -/
theorem fetch_transport_failure_counterexample :
    fetch_all_priority_transactions tHeightFail SequencerType.L1 = none ∧
    ∀ e, fetch_all_priority_transactions tHeightFail SequencerType.L1 ≠
      some (Except.error e) := by
  refine ⟨rfl, ?_⟩
  intro e h
  rw [show fetch_all_priority_transactions tHeightFail SequencerType.L1 = none from
    rfl] at h
  exact Option.noConfusion h

/-- If any window the scan loop issues has a failing log query, the loop
aborts with the transport error of a failing issued window, wherever in
the window sequence the failure occurs: the loop never swallows a
mid-scan failure into a success and never retries a window. -/
theorem getAllEventsLoop_error_of_window_failure (t : Transport) (W : Nat) :
    ∀ s c, (∃ w ∈ scanWindows W s c, ∃ e, t.getLogs w.1 w.2 = Except.error e) →
      ∃ w ∈ scanWindows W s c, ∃ e, t.getLogs w.1 w.2 = Except.error e ∧
        getAllEventsLoop t W s c = Except.error (Err.transport e) := by
  intro s
  induction s with
  | zero =>
    intro c h
    simp [scanWindows] at h
  | succ s0 ih =>
    intro c h
    by_cases hc : c = 0
    · subst hc
      simp [scanWindows] at h
    · by_cases hs0 : s0 = 0
      · subst hs0
        rw [scanWindows_one W c hc] at h ⊢
        obtain ⟨w, hw, e, he⟩ := h
        simp only [List.mem_singleton] at hw
        simp only [hw] at he
        refine ⟨(c - W + 1, c), by simp, e, he, ?_⟩
        simp [getAllEventsLoop, hc, he]
      · rw [scanWindows_cons W s0 c hc hs0] at h ⊢
        cases hl : t.getLogs (c - W + 1) c with
        | error e =>
          refine ⟨(c - W + 1, c), List.mem_cons_self _ _, e, hl, ?_⟩
          simp [getAllEventsLoop, hc, hl]
        | ok logs =>
          have htail : ∃ w ∈ scanWindows W s0 (c - W), ∃ e,
              t.getLogs w.1 w.2 = Except.error e := by
            obtain ⟨w, hw, e, he⟩ := h
            rcases List.mem_cons.mp hw with hw | hw
            · simp only [hw] at he
              rw [hl] at he
              exact absurd he (by simp)
            · exact ⟨w, hw, e, he⟩
          obtain ⟨w, hw, e, he, hloop⟩ := ih (c - W) htail
          refine ⟨w, List.mem_cons_of_mem _ hw, e, he, ?_⟩
          simp [getAllEventsLoop, hc, hs0, hl, hloop]

/-- Claim C6 (amended): every transport failure during an event scan is
fatal to the in-flight operation, propagated and never retried or
swallowed — a failed block-height query, or a failed log query on any
window the scan issues (first, middle or last), makes get_all_events
return that transport error; but fetch_all_priority_transactions unwraps
the scan result, so a transport failure during a priority-transaction
fetch panics rather than being returned as an error, while a successful
scan is decoded and returned intact. -/
theorem transport_failure_fail_fast :
    (∀ (t : Transport) (limit : Nat) (e : TransportErr),
      t.blockNumber = Except.error e →
      get_all_events t limit = Except.error (Err.transport e)) ∧
    (∀ (t : Transport) (limit H : Nat),
      t.blockNumber = Except.ok H →
      (∃ w ∈ get_all_events_windows BLOCKS_PER_CALL limit H, ∃ e,
        t.getLogs w.1 w.2 = Except.error e) →
      ∃ w ∈ get_all_events_windows BLOCKS_PER_CALL limit H, ∃ e,
        t.getLogs w.1 w.2 = Except.error e ∧
        get_all_events t limit = Except.error (Err.transport e)) ∧
    (∀ (t : Transport) (e : Err),
      get_all_events t 5000 = Except.error e →
      fetch_all_priority_transactions t SequencerType.L1 = none) ∧
    (∀ (t : Transport) (logs : List Log),
      get_all_events t 5000 = Except.ok logs →
      fetch_all_priority_transactions t SequencerType.L1 =
        some (Except.ok (logs.map PriorityTransaction.ofLog))) := by
  refine ⟨?_, ?_, ?_, ?_⟩
  · intro t limit e h
    simp [get_all_events, h]
  · intro t limit H hbn h
    unfold get_all_events_windows at h ⊢
    obtain ⟨w, hw, e, he, hloop⟩ :=
      getAllEventsLoop_error_of_window_failure t BLOCKS_PER_CALL
        (limit / BLOCKS_PER_CALL + 1) H h
    exact ⟨w, hw, e, he, by simp [get_all_events, hbn, hloop]⟩
  · intro t e h
    simp [fetch_all_priority_transactions, h]
  · intro t logs h
    simp [fetch_all_priority_transactions, h]

/-- Witness for C6 (amended): a failed height query (tHeightFail) aborts
the scan; tLateFail succeeds on its first issued window (501, 1000) and
fails on the second window (1, 500), and the scan still aborts with that
mid-scan transport error; the failed scan makes the fetch panic, and the
empty successful scan (tEmpty) is returned as an empty transaction
list. -/
theorem transport_failure_fail_fast_witness :
    ((tHeightFail.blockNumber = Except.error 3 ∧
       get_all_events tHeightFail 5000 = Except.error (Err.transport 3)) ∧
     (tLateFail.blockNumber = Except.ok 1000 ∧
      (∃ w ∈ get_all_events_windows BLOCKS_PER_CALL 5000 1000, ∃ e,
        tLateFail.getLogs w.1 w.2 = Except.error e) ∧
      (∃ w ∈ get_all_events_windows BLOCKS_PER_CALL 5000 1000, ∃ e,
        tLateFail.getLogs w.1 w.2 = Except.error e ∧
        get_all_events tLateFail 5000 = Except.error (Err.transport e)))) ∧
    (get_all_events tHeightFail 5000 = Except.error (Err.transport 3) →
      fetch_all_priority_transactions tHeightFail SequencerType.L1 = none) ∧
    (get_all_events tEmpty 5000 = Except.ok [] →
      fetch_all_priority_transactions tEmpty SequencerType.L1 =
        some (Except.ok [])) :=
  ⟨⟨⟨rfl, transport_failure_fail_fast.1 tHeightFail 5000 3 rfl⟩,
    ⟨rfl, ⟨(1, 500), by decide, 7, rfl⟩,
      transport_failure_fail_fast.2.1 tLateFail 5000 1000 rfl
        ⟨(1, 500), by decide, 7, rfl⟩⟩⟩,
   fun h => transport_failure_fail_fast.2.2.1 tHeightFail (Err.transport 3) h,
   fun h => transport_failure_fail_fast.2.2.2 tEmpty [] h⟩

/-- Claim C10: on an L2-type sequencer, fetch_all_priority_transactions
returns the "priority transactions are only available on L1" error for
every transport — in particular its result does not depend on the
transport, so no remote call is consulted; only on an L1-type sequencer
does it scan (through get_all_events with the 5000-block depth limit) and
decode the priority-message events. -/
theorem fetch_priority_transactions_l2_gate :
    (∀ (t : Transport) (info : L2SequencerInfo),
      fetch_all_priority_transactions t (SequencerType.L2 info) =
        some (Except.error Err.priorityOnlyL1)) ∧
    (∀ (t₁ t₂ : Transport) (info : L2SequencerInfo),
      fetch_all_priority_transactions t₁ (SequencerType.L2 info) =
        fetch_all_priority_transactions t₂ (SequencerType.L2 info)) ∧
    (∀ (t : Transport) (logs : List Log),
      get_all_events t 5000 = Except.ok logs →
      fetch_all_priority_transactions t SequencerType.L1 =
        some (Except.ok (logs.map PriorityTransaction.ofLog))) := by
  refine ⟨fun t info => rfl, fun t₁ t₂ info => rfl, ?_⟩
  intro t logs h
  simp [fetch_all_priority_transactions, h]

/-- Witness for C10: the L2 error is returned over both a failing and a
succeeding transport, and the L1 path decodes the empty scan. -/
theorem fetch_priority_transactions_l2_gate_witness :
    (fetch_all_priority_transactions tHeightFail
        (SequencerType.L2 { l1_chain_id := 9, bridgehub_address := 8 }) =
      some (Except.error Err.priorityOnlyL1)) ∧
    (fetch_all_priority_transactions tHeightFail
        (SequencerType.L2 { l1_chain_id := 9, bridgehub_address := 8 }) =
      fetch_all_priority_transactions tEmpty
        (SequencerType.L2 { l1_chain_id := 9, bridgehub_address := 8 })) ∧
    (get_all_events tEmpty 5000 = Except.ok [] →
      fetch_all_priority_transactions tEmpty SequencerType.L1 =
        some (Except.ok [])) :=
  ⟨fetch_priority_transactions_l2_gate.1 tHeightFail
      { l1_chain_id := 9, bridgehub_address := 8 },
   fetch_priority_transactions_l2_gate.2.1 tHeightFail tEmpty
      { l1_chain_id := 9, bridgehub_address := 8 },
   fun h => fetch_priority_transactions_l2_gate.2.2 tEmpty [] h⟩

/-! Helper lemmas for the asset classification and balance aggregation. -/

theorem registered_asset_tag_of_new (o : TokenOracle) (asset_id : Bytes)
    (dt vault bh : Address) (a : RegisteredAsset)
    (h : RegisteredAsset.new o asset_id dt vault bh = some a) :
    a.handler.tag = (if dt = vault then HandlerTag.vaultBacked
      else if dt = bh then HandlerTag.registryBacked
      else HandlerTag.unknownHandler) := by
  unfold RegisteredAsset.new at h
  by_cases hv : dt = vault
  · rw [if_pos hv] at h ⊢
    cases hta : o.tokenAddress asset_id with
    | none =>
      simp only [hta] at h
      exact Option.noConfusion h
    | some token_address =>
      simp only [hta] at h
      cases htn : (if token_address = ETH_TOKEN_ADDRESS then some "ETH"
          else o.erc20Name token_address) with
      | none =>
        simp only [htn] at h
        exact Option.noConfusion h
      | some token_name =>
        simp only [htn, Option.some.injEq] at h
        rw [← h]
        rfl
  · rw [if_neg hv] at h ⊢
    by_cases hb : dt = bh
    · rw [if_pos hb] at h ⊢
      injection h with h2
      rw [← h2]
      rfl
    · rw [if_neg hb] at h ⊢
      injection h with h2
      rw [← h2]
      rfl

theorem mapInsert_keys (m : List (String × Nat)) (k : String) (v : Nat) :
    ∀ k₂ ∈ (mapInsert m k v).map Prod.fst, k₂ ∈ m.map Prod.fst ∨ k₂ = k := by
  intro k₂ hk
  unfold mapInsert at hk
  by_cases hany : m.any fun p => p.1 = k
  · rw [if_pos hany, List.map_map] at hk
    obtain ⟨p, hp, he⟩ := List.mem_map.mp hk
    by_cases hpk : p.1 = k
    · right
      simp only [Function.comp, hpk, if_pos] at he
      exact he.symm
    · left
      simp only [Function.comp, hpk, if_neg, if_false] at he
      exact he ▸ List.mem_map_of_mem Prod.fst hp
  · rw [if_neg hany, List.map_append] at hk
    rcases List.mem_append.mp hk with h | h
    · left
      exact h
    · right
      simpa using h

theorem chainBalancesLoop_keys (humanName : Bytes → String)
    (bal : Address → Nat → Bytes → Option Nat) (vault : Address) (chain_id : Nat) :
    ∀ (assets : List (Bytes × RegisteredAsset)) (acc res : List (String × Nat)),
      chainBalancesLoop humanName bal vault chain_id assets acc = some res →
      ∀ k ∈ res.map Prod.fst,
        k ∈ acc.map Prod.fst ∨ ∃ p ∈ assets, k = p.2.name humanName := by
  intro assets
  induction assets with
  | nil =>
    intro acc res h k hk
    left
    injection h with h2
    exact h2 ▸ hk
  | cons pa rest ih =>
    intro acc res h k hk
    obtain ⟨aid, a⟩ := pa
    unfold chainBalancesLoop at h
    cases hbal : bal vault chain_id aid with
    | none =>
      rw [hbal] at h
      exact Option.noConfusion h
    | some amount =>
      rw [hbal] at h
      rcases ih _ res h k hk with hin | ⟨p, hp, he⟩
      · rcases mapInsert_keys acc _ amount k hin with h2 | h2
        · left
          exact h2
        · right
          exact ⟨(aid, a), List.mem_cons_self _ _, h2⟩
      · right
        exact ⟨p, List.mem_cons_of_mem _ hp, he⟩

/-- Claim C7: the handler variant RegisteredAsset::new assigns is a pure
function of (deploymentTracker, vaultAddress, registryRootAddress): two
runs over arbitrary (even disagreeing) remote oracles yield the same
variant, and that variant is vault-backed when the tracker equals the
vault address, registry-backed when it equals the registry-root
(bridgehub) address and not the vault, and unknown otherwise. -/
theorem registered_asset_variant_pure (o₁ o₂ : TokenOracle) (asset_id : Bytes)
    (dt vault bh : Address) (a₁ a₂ : RegisteredAsset)
    (h₁ : RegisteredAsset.new o₁ asset_id dt vault bh = some a₁)
    (h₂ : RegisteredAsset.new o₂ asset_id dt vault bh = some a₂) :
    a₁.handler.tag = a₂.handler.tag ∧
    a₁.handler.tag = (if dt = vault then HandlerTag.vaultBacked
      else if dt = bh then HandlerTag.registryBacked
      else HandlerTag.unknownHandler) :=
  ⟨(registered_asset_tag_of_new o₁ asset_id dt vault bh a₁ h₁).trans
      (registered_asset_tag_of_new o₂ asset_id dt vault bh a₂ h₂).symm,
    registered_asset_tag_of_new o₁ asset_id dt vault bh a₁ h₁⟩

/-- Witness for C7: the oracles oTest and oTest2 resolve different token
data, yet the variant for the triple (5, 5, 7) is vault-backed in both
runs. -/
theorem registered_asset_variant_pure_witness :
    (RegisteredAsset.new oTest [1] 5 5 7 = some assetT ∧
     RegisteredAsset.new oTest2 [1] 5 5 7 = some assetETH) ∧
    (assetT.handler.tag = assetETH.handler.tag ∧
     assetT.handler.tag = (if (5 : Address) = 5 then HandlerTag.vaultBacked
       else if (5 : Address) = 7 then HandlerTag.registryBacked
       else HandlerTag.unknownHandler)) :=
  ⟨⟨rfl, rfl⟩, registered_asset_variant_pure oTest oTest2 [1] 5 5 7 assetT assetETH rfl rfl⟩

/-- Claim C8: whenever the balance aggregation over an L1 router returns
a map, every key of that map is the display name of some vault-backed
(native-token-vault) registered asset of that router; and the name of a
registry-backed or unknown-handler asset never appears as a key unless a
vault-backed asset happens to carry the very same name. -/
theorem get_chain_balances_keys_vault_backed (humanName : Bytes → String)
    (bal : Address → Nat → Bytes → Option Nat) (r : L1AssetRouter) (chain_id : Nat)
    (m : List (String × Nat))
    (h : get_chain_balances humanName bal (AssetRouter.L1 r) chain_id =
      some (Except.ok m)) :
    (∀ k ∈ m.map Prod.fst, ∃ p ∈ r.registered_assets,
      p.2.handler.isNativeTokenVault = true ∧ k = p.2.name humanName) ∧
    (∀ p ∈ r.registered_assets, p.2.handler.isNativeTokenVault = false →
      (∀ q ∈ r.registered_assets, q.2.handler.isNativeTokenVault = true →
        q.2.name humanName ≠ p.2.name humanName) →
      p.2.name humanName ∉ m.map Prod.fst) := by
  simp only [get_chain_balances] at h
  cases hl : chainBalancesLoop humanName bal r.native_token_vault chain_id
      (r.registered_assets.filter fun p => p.2.handler.isNativeTokenVault) [] with
  | none =>
    simp only [hl] at h
    exact Option.noConfusion h
  | some res =>
    simp only [hl, Option.some.injEq, Except.ok.injEq] at h
    subst h
    have hkeys := chainBalancesLoop_keys humanName bal r.native_token_vault chain_id
      _ [] res hl
    have hfirst : ∀ k ∈ res.map Prod.fst, ∃ p ∈ r.registered_assets,
        p.2.handler.isNativeTokenVault = true ∧ k = p.2.name humanName := by
      intro k hk
      rcases hkeys k hk with hin | ⟨p, hp, he⟩
      · simp at hin
      · rw [List.mem_filter] at hp
        exact ⟨p, hp.1, hp.2, he⟩
    refine ⟨hfirst, ?_⟩
    intro p hp hnotv hdiff hmem
    obtain ⟨q, hqmem, hqv, he⟩ := hfirst (p.2.name humanName) hmem
    exact hdiff q hqmem hqv he.symm

/-- Witness for C8: routerTest holds one vault-backed asset (name tok-h)
and one unknown-handler asset; the returned balance map has tok-h as its
only key. -/
theorem get_chain_balances_keys_vault_backed_witness :
    (get_chain_balances humanTest balTest (AssetRouter.L1 routerTest) 7 =
      some (Except.ok [("tok-h", 4)])) ∧
    ((∀ k ∈ ([("tok-h", 4)] : List (String × Nat)).map Prod.fst,
        ∃ p ∈ routerTest.registered_assets,
          p.2.handler.isNativeTokenVault = true ∧ k = p.2.name humanTest) ∧
     (∀ p ∈ routerTest.registered_assets, p.2.handler.isNativeTokenVault = false →
        (∀ q ∈ routerTest.registered_assets, q.2.handler.isNativeTokenVault = true →
          q.2.name humanTest ≠ p.2.name humanTest) →
        p.2.name humanTest ∉ ([("tok-h", 4)] : List (String × Nat)).map Prod.fst)) :=
  ⟨rfl,
    get_chain_balances_keys_vault_backed humanTest balTest routerTest 7
      [("tok-h", 4)] rfl⟩
